import Mathlib

/-!
Verification of the haighlighter annotation overlay.

Shallow embedding of the annotation-overlay core of the repository:

* the success path of `handleTextSubmit` (the Annotation Reconciler:
  clear all highlights, then re-apply the spans returned by the scorer),
* its validation of the scorer's JSON response,
* the click handler of `Editor.jsx` that dismisses a highlighted run.

The document's highlight overlay is modelled as one Boolean per character
(`HighlightState`).  The rich-text engine (Quill) is an external
collaborator, so its `formatText` / run-resolution operations are modelled
from the spec's Document Facade contract (§4.1/§4.4 of the design).
-/

namespace Haighlighter

/-- The highlight overlay of a document of length `N`: entry `i` says whether
the character at index `i` currently carries the `highlight` attribute. -/
abbrev HighlightState := List Bool

/-- Modelled from the spec: the Document Facade operation
`setFormat(start, length, 'highlighted', value)` — in the code, Quill's
`quill.formatText(start, length, 'highlight', value)`, which is external to
`src/`.  Per the facade contract it applies `value` over the index range
`[start, start + length)` and "must be a no-op safely clamped if the range
exceeds current text length … it must clamp or silently skip the excess":
only indices of the document that fall inside the requested range are
written; it never throws. -/
def formatText (start len : Int) (value : Bool) (st : HighlightState) :
    HighlightState :=
  st.mapIdx fun i b =>
    if start ≤ (i : Int) ∧ (i : Int) < start + len then value else b

/-- Whether the character at index `i` is currently highlighted
(indices past the end of the document are never highlighted). -/
def highlighted (st : HighlightState) (i : Nat) : Bool :=
  st.getD i false

/-- One iteration of the span-application loop of `handleTextSubmit`, for a
span already known to be a pair of numbers: the code checks `length > 0`
(and nothing else — no lower or upper bound on the range) before calling
`formatText(start, length, 'highlight', true)`. -/
def applySpan (st : HighlightState) (sp : Int × Int) : HighlightState :=
  if 0 < sp.2 then formatText sp.1 sp.2 true st else st

/-- The reconciliation performed by the success path of `handleTextSubmit`
(the spec's `applyAnnotations`), specialised to a response that is a list of
numeric `(start, length)` pairs: clear the highlight attribute over the whole
text, then apply each span in order. -/
def applyAnnotations (spans : List (Int × Int)) (st : HighlightState) :
    HighlightState :=
  spans.foldl applySpan (formatText 0 (st.length : Int) false st)

/-- Whether span `sp` covers character index `i`. -/
def covers (sp : Int × Int) (i : Nat) : Bool :=
  decide (sp.1 ≤ (i : Int)) && decide ((i : Int) < sp.1 + sp.2)

/-! ## Basic lemmas about the facade model -/

theorem length_formatText (s l : Int) (v : Bool) (st : HighlightState) :
    (formatText s l v st).length = st.length := by
  simp [formatText]

theorem highlighted_formatText (s l : Int) (v : Bool) (st : HighlightState)
    (i : Nat) (h : i < st.length) :
    highlighted (formatText s l v st) i =
      if s ≤ (i : Int) ∧ (i : Int) < s + l then v else highlighted st i := by
  have h' : i < (formatText s l v st).length := by
    rwa [length_formatText]
  unfold highlighted
  rw [List.getD_eq_get _ _ h', List.getD_eq_get _ _ h]
  exact List.get_mapIdx st _ i h

theorem highlighted_of_ge (st : HighlightState) (i : Nat)
    (h : st.length ≤ i) : highlighted st i = false :=
  List.getD_eq_default _ _ h

theorem length_applySpan (st : HighlightState) (sp : Int × Int) :
    (applySpan st sp).length = st.length := by
  unfold applySpan
  split <;> simp [length_formatText]

theorem covers_eq_false_of_nonpos (sp : Int × Int) (i : Nat)
    (h : sp.2 ≤ 0) : covers sp i = false := by
  simp only [covers, Bool.and_eq_false_iff, decide_eq_false_iff_not, not_le,
    not_lt]
  by_cases hle : sp.1 ≤ (i : Int)
  · right
    omega
  · left
    omega

theorem highlighted_applySpan (st : HighlightState) (sp : Int × Int)
    (i : Nat) (h : i < st.length) :
    highlighted (applySpan st sp) i = (highlighted st i || covers sp i) := by
  unfold applySpan
  split
  · rw [highlighted_formatText _ _ _ _ _ h]
    by_cases hc : sp.1 ≤ (i : Int) ∧ (i : Int) < sp.1 + sp.2
    · simp [hc, covers, hc.1, hc.2]
    · have : covers sp i = false := by
        simp only [covers, Bool.and_eq_false_iff, decide_eq_false_iff_not]
        omega
      simp [hc, this]
  · rw [covers_eq_false_of_nonpos sp i (by omega)]
    simp

theorem highlighted_foldl_applySpan (S : List (Int × Int))
    (st : HighlightState) (i : Nat) (h : i < st.length) :
    highlighted (S.foldl applySpan st) i =
      (highlighted st i || S.any fun sp => covers sp i) := by
  induction S generalizing st with
  | nil => simp
  | cons sp rest ih =>
    rw [List.foldl_cons, ih _ (by rwa [length_applySpan]),
      highlighted_applySpan _ _ _ h]
    simp [Bool.or_assoc]

theorem length_foldl_applySpan (S : List (Int × Int)) (st : HighlightState) :
    (S.foldl applySpan st).length = st.length := by
  induction S generalizing st with
  | nil => rfl
  | cons sp rest ih => rw [List.foldl_cons, ih, length_applySpan]

theorem length_applyAnnotations (S : List (Int × Int))
    (st : HighlightState) :
    (applyAnnotations S st).length = st.length := by
  unfold applyAnnotations
  rw [length_foldl_applySpan, length_formatText]

theorem clear_eq_replicate (st : HighlightState) :
    formatText 0 (st.length : Int) false st =
      List.replicate st.length false := by
  apply List.ext_getElem
  · rw [length_formatText, List.length_replicate]
  · intro i h1 h2
    have hi : i < st.length := by rwa [length_formatText] at h1
    have hL : (formatText 0 (st.length : Int) false st)[i] = false := by
      have heq := highlighted_formatText 0 (st.length : Int) false st i hi
      rw [highlighted, List.getD_eq_getElem _ _ h1] at heq
      rw [heq]
      have hc : (0 : Int) ≤ (i : Int) ∧ (i : Int) < 0 + (st.length : Int) := by
        constructor <;> omega
      rw [if_pos hc]
    rw [hL, List.getElem_replicate]

theorem highlighted_clear (st : HighlightState) (i : Nat) :
    highlighted (formatText 0 (st.length : Int) false st) i = false := by
  rw [clear_eq_replicate]
  unfold highlighted
  rcases Nat.lt_or_ge i st.length with h | h
  · rw [List.getD_eq_get _ _ (by simpa using h)]
    simp
  · exact List.getD_eq_default _ _ (by simpa using h)

theorem highlighted_applyAnnotations (S : List (Int × Int))
    (st : HighlightState) (i : Nat) :
    highlighted (applyAnnotations S st) i =
      (decide (i < st.length) && S.any fun sp => covers sp i) := by
  unfold applyAnnotations
  rcases Nat.lt_or_ge i st.length with h | h
  · rw [highlighted_foldl_applySpan _ _ _ (by rwa [length_formatText]),
      highlighted_clear]
    simp [h]
  · rw [highlighted_of_ge _ _ (by rw [length_foldl_applySpan, length_formatText]; exact h)]
    simp
    omega

/-! ## The scorer response and `handleTextSubmit` (src/unnamed/part_001) -/

/-- A JSON value decoded by `response.json()`.  Numbers are modelled as
integers (the spans of interest are integer offsets). -/
inductive JsonVal where
  | num (n : Int)
  | str (s : String)
  | bool (b : Bool)
  | null
  | arr (elems : List JsonVal)
  | obj (fields : List (String × JsonVal))

/-- Whether a JSON value is an array (`Array.isArray`). -/
def JsonVal.isArr : JsonVal → Bool
  | .arr _ => true
  | _ => false

/-- JavaScript array destructuring `const [start, length] = e` of one
response element: an array yields its first two entries (`none` = JS
`undefined` when missing); a string is iterable and yields its first two
characters as one-character strings; a number, boolean, `null` or plain
object is not iterable, so destructuring throws a `TypeError`, modelled as
`none` at the outer level. -/
def destructure2 : JsonVal → Option (Option JsonVal × Option JsonVal)
  | .arr xs => some (xs[0]?, xs[1]?)
  | .str s => some ((s.data[0]?).map fun c => .str (String.mk [c]),
      (s.data[1]?).map fun c => .str (String.mk [c]))
  | _ => none

/-- The body of the `forEach` callback after destructuring: the code applies
`formatText(start, length, 'highlight', true)` exactly when
`typeof start === 'number' && typeof length === 'number' && length > 0`,
and otherwise does nothing. -/
def applyElem (st : HighlightState) (a b : Option JsonVal) : HighlightState :=
  match a, b with
  | some (.num s), some (.num l) => if 0 < l then formatText s l true st else st
  | _, _ => st

/-- Whether a destructured pair passes the code's per-element check
`typeof start === 'number' && typeof length === 'number' && length > 0`. -/
def pairApplies (a b : Option JsonVal) : Bool :=
  match a, b with
  | some (.num _), some (.num l) => decide (0 < l)
  | _, _ => false

/-- Whether a tuple element `xs` passes the code's per-element check, i.e.
its first two entries are both numbers and the second is positive. -/
def tupleApplies (xs : List JsonVal) : Bool :=
  pairApplies xs[0]? xs[1]?

/-- The `result.forEach(([start, length]) => …)` loop of `handleTextSubmit`.
Returns the highlight state when the loop finishes or throws, together with
whether it threw (destructuring a non-iterable element throws, which aborts
the loop; already-applied formatting persists). -/
def processSpans (st : HighlightState) : List JsonVal → HighlightState × Bool
  | [] => (st, false)
  | e :: rest =>
    match destructure2 e with
    | none => (st, true)
    | some (a, b) => processSpans (applyElem st a b) rest

/-- The observable outcome of one `handleTextSubmit` call: the resulting
highlight state, whether the `catch` block reported an error
(`console.error`), and how many network requests were issued. -/
structure SubmitResult where
  state : HighlightState
  errorReported : Bool
  requestsSent : Nat
deriving DecidableEq

/-- `handleTextSubmit` from `src/unnamed/part_001`, given the prior highlight
state and the outcome of its single `fetch` + `response.json()` round trip
(`none` = the fetch or the body decode threw).  On a decoded value, the code
proceeds only when `Array.isArray(result)` holds (with the editor mounted,
`quillRef.current` present); it then clears all highlights over the full text
length and runs the span loop; any throw inside the `try` lands in the
`catch`, which reports the error.  A non-array body is silently ignored.
Exactly one request is issued per call — there is no retry. -/
def handleTextSubmit (st : HighlightState) (outcome : Option JsonVal) :
    SubmitResult :=
  match outcome with
  | none => ⟨st, true, 1⟩
  | some result =>
    match result with
    | .arr elems =>
      let out := processSpans (formatText 0 (st.length : Int) false st) elems
      ⟨out.1, out.2, 1⟩
    | _ => ⟨st, false, 1⟩

/-! ## The click handler of src/frontend/src/Editor.jsx -/

/-- Start of the maximal run of equal highlight value containing index `i`:
walk left while the previous character has the same highlight value.
Modelled from the spec: the Document Facade's `resolveRun` (in the code,
Quill's `getLeaf`/`getIndex`, external to `src/`) resolves an index to the
maximal contiguous run of text sharing the same attribute set; the overlay
model carries only the highlight attribute. -/
def runStart (st : HighlightState) : Nat → Nat
  | 0 => 0
  | i + 1 =>
    if st.getD i false = st.getD (i + 1) false then runStart st i else i + 1

/-- Length of the stretch of characters equal to `v` at the front of `l`. -/
def runLen (v : Bool) : List Bool → Nat
  | [] => 0
  | b :: rest => if b = v then runLen v rest + 1 else 0

/-- One past the end of the maximal run of equal highlight value containing
index `i` (companion to `runStart`; modelled from the spec's `resolveRun`,
see `runStart`). -/
def runEnd (st : HighlightState) (i : Nat) : Nat :=
  i + 1 + runLen (st.getD i false) (st.drop (i + 1))

/-- The click listener of `Editor.jsx`: if the click target carries the
`ql-highlight` class, ask for the current selection; with no selection,
nothing happens; with a selection at index `i`, resolve the leaf (run)
containing `i` and remove the highlight format over that whole run. -/
def handleClick (st : HighlightState) (targetHighlighted : Bool)
    (sel : Option Nat) : HighlightState :=
  if targetHighlighted then
    match sel with
    | none => st
    | some i =>
      formatText (runStart st i : Int)
        (((runEnd st i - runStart st i : Nat)) : Int) false st
  else st

/-! ## Structure of highlight runs -/

theorem getD_drop (l : List Bool) (n j : Nat) (d : Bool) :
    (l.drop n).getD j d = l.getD (n + j) d := by
  induction l generalizing n with
  | nil => simp [List.drop_nil]
  | cons a rest ih =>
    cases n with
    | zero => simp
    | succ m => simpa [Nat.succ_add] using ih m

theorem runStart_le (st : HighlightState) (i : Nat) : runStart st i ≤ i := by
  induction i with
  | zero => exact Nat.le_refl 0
  | succ n ih =>
    simp only [runStart]
    split
    · exact Nat.le_succ_of_le ih
    · exact Nat.le_refl _

theorem runStart_sat (st : HighlightState) (i : Nat) :
    ∀ j, runStart st i ≤ j → j ≤ i → st.getD j false = st.getD i false := by
  induction i with
  | zero =>
    intro j _ h2
    have : j = 0 := by omega
    rw [this]
  | succ n ih =>
    intro j h1 h2
    by_cases hj : j = n + 1
    · rw [hj]
    · have hj' : j ≤ n := by omega
      simp only [runStart] at h1
      by_cases heq : st.getD n false = st.getD (n + 1) false
      · rw [if_pos heq] at h1
        rw [ih j h1 hj', heq]
      · rw [if_neg heq] at h1
        omega

theorem runStart_left (st : HighlightState) (i : Nat)
    (h : 0 < runStart st i) :
    st.getD (runStart st i - 1) false ≠ st.getD i false := by
  induction i with
  | zero => simp [runStart] at h
  | succ n ih =>
    by_cases heq : st.getD n false = st.getD (n + 1) false
    · simp only [runStart, if_pos heq] at h ⊢
      rw [← heq]
      exact ih h
    · simp only [runStart, if_neg heq] at h ⊢
      simpa using heq

theorem runLen_le (v : Bool) (l : List Bool) : runLen v l ≤ l.length := by
  induction l with
  | nil => exact Nat.le_refl 0
  | cons b rest ih =>
    simp only [runLen, List.length_cons]
    split
    · omega
    · omega

theorem runLen_sat (v : Bool) (l : List Bool) :
    ∀ j, j < runLen v l → l.getD j false = v := by
  induction l with
  | nil => intro j h; simp [runLen] at h
  | cons b rest ih =>
    intro j h
    simp only [runLen] at h
    split at h
    case isTrue hb =>
      match j with
      | 0 => simpa using hb
      | j + 1 =>
        rw [List.getD_cons_succ]
        exact ih j (by omega)
    case isFalse => omega

theorem runLen_stop (v : Bool) (l : List Bool) (h : runLen v l < l.length) :
    l.getD (runLen v l) false ≠ v := by
  induction l with
  | nil => simp at h
  | cons b rest ih =>
    by_cases hb : b = v
    · simp only [runLen, if_pos hb] at h ⊢
      rw [List.getD_cons_succ]
      exact ih (by simpa using h)
    · simp only [runLen, if_neg hb]
      simp only [List.getD_cons_zero]
      exact hb

theorem lt_length_of_highlighted (st : HighlightState) (i : Nat)
    (hi : highlighted st i = true) : i < st.length := by
  by_contra h
  rw [highlighted_of_ge st i (by omega)] at hi
  exact Bool.false_ne_true hi

theorem runEnd_le_length (st : HighlightState) (i : Nat)
    (h : i < st.length) : runEnd st i ≤ st.length := by
  unfold runEnd
  have := runLen_le (st.getD i false) (st.drop (i + 1))
  rw [List.length_drop] at this
  omega

theorem lt_runEnd (st : HighlightState) (i : Nat) : i < runEnd st i := by
  unfold runEnd
  omega

theorem runEnd_sat (st : HighlightState) (i : Nat) :
    ∀ j, i ≤ j → j < runEnd st i → st.getD j false = st.getD i false := by
  intro j h1 h2
  by_cases hj : j = i
  · rw [hj]
  · have hj' : i + 1 ≤ j := by omega
    have hlt : j - (i + 1) < runLen (st.getD i false) (st.drop (i + 1)) := by
      unfold runEnd at h2
      omega
    have := runLen_sat (st.getD i false) (st.drop (i + 1)) _ hlt
    rwa [getD_drop, Nat.add_sub_cancel' hj'] at this

theorem runEnd_stop (st : HighlightState) (i : Nat)
    (h : runEnd st i < st.length) :
    st.getD (runEnd st i) false ≠ st.getD i false := by
  have hlen : runLen (st.getD i false) (st.drop (i + 1)) <
      (st.drop (i + 1)).length := by
    rw [List.length_drop]
    unfold runEnd at h
    omega
  have := runLen_stop (st.getD i false) (st.drop (i + 1)) hlen
  rwa [getD_drop] at this

theorem highlighted_handleClick (st : HighlightState) (i j : Nat) :
    highlighted (handleClick st true (some i)) j =
      if runStart st i ≤ j ∧ j < runEnd st i then false
      else highlighted st j := by
  have hred : handleClick st true (some i) =
      formatText (runStart st i : Int)
        ((runEnd st i - runStart st i : Nat) : Int) false st := rfl
  rw [hred]
  rcases Nat.lt_or_ge j st.length with hj | hj
  · rw [highlighted_formatText _ _ _ _ _ hj]
    have hse : runStart st i ≤ runEnd st i :=
      le_of_lt (Nat.lt_of_le_of_lt (runStart_le st i) (lt_runEnd st i))
    by_cases hc : runStart st i ≤ j ∧ j < runEnd st i
    · have hci : (runStart st i : Int) ≤ (j : Int) ∧
          (j : Int) < (runStart st i : Int) +
            ((runEnd st i - runStart st i : Nat) : Int) := by
        omega
      rw [if_pos hc, if_pos hci]
    · have hci : ¬ ((runStart st i : Int) ≤ (j : Int) ∧
          (j : Int) < (runStart st i : Int) +
            ((runEnd st i - runStart st i : Nat) : Int)) := by
        omega
      rw [if_neg hc, if_neg hci]
  · rw [highlighted_of_ge _ j (by rw [length_formatText]; exact hj),
      highlighted_of_ge st j hj]
    simp

/-! ## Lemmas about the response-processing loop -/

theorem tupleApplies_eq (xs : List JsonVal) :
    tupleApplies xs = pairApplies xs[0]? xs[1]? := rfl

theorem applyElem_of_not_applies (st : HighlightState) (a b : Option JsonVal)
    (h : pairApplies a b = false) : applyElem st a b = st := by
  cases a with
  | none => rfl
  | some va =>
    cases b with
    | none => cases va <;> rfl
    | some vb => cases va <;> cases vb <;> simp_all [applyElem, pairApplies]

theorem processSpans_skip (st : HighlightState) (xs rest : List JsonVal)
    (h : tupleApplies xs = false) :
    processSpans st (.arr xs :: rest) = processSpans st rest := by
  show processSpans (applyElem st xs[0]? xs[1]?) rest = processSpans st rest
  rw [applyElem_of_not_applies st _ _ ((tupleApplies_eq xs) ▸ h)]

theorem processSpans_middle (xs : List JsonVal) (h : tupleApplies xs = false) :
    ∀ (pre : List JsonVal) (st : HighlightState) (post : List JsonVal),
      processSpans st (pre ++ .arr xs :: post) =
        processSpans st (pre ++ post) := by
  intro pre
  induction pre with
  | nil => intro st post; exact processSpans_skip st xs post h
  | cons e pre ih =>
    intro st post
    simp only [List.cons_append, processSpans]
    rcases hde : destructure2 e with _ | ⟨a, b⟩
    · simp only []
    · simp only []
      exact ih (applyElem st a b) post

theorem processSpans_wellFormed (spans : List (Int × Int)) :
    ∀ st : HighlightState,
      processSpans st (spans.map fun sp => .arr [.num sp.1, .num sp.2]) =
        (spans.foldl applySpan st, false) := by
  induction spans with
  | nil => intro st; rfl
  | cons sp rest ih =>
    intro st
    show processSpans (applyElem st (some (.num sp.1)) (some (.num sp.2)))
      (rest.map fun sp => .arr [.num sp.1, .num sp.2]) = _
    have heq : applyElem st (some (.num sp.1)) (some (.num sp.2)) =
        applySpan st sp := rfl
    rw [heq, List.foldl_cons]
    exact ih _

/-- Coherence: on a well-formed response (a list of numeric pairs),
`handleTextSubmit` performs exactly the reconciliation `applyAnnotations`,
reports no error, and issues one request. -/
theorem handleTextSubmit_wellFormed (st : HighlightState)
    (spans : List (Int × Int)) :
    handleTextSubmit st
        (some (.arr (spans.map fun sp => .arr [.num sp.1, .num sp.2]))) =
      ⟨applyAnnotations spans st, false, 1⟩ := by
  have h := processSpans_wellFormed spans (formatText 0 (st.length : Int) false st)
  show SubmitResult.mk
      (processSpans (formatText 0 (st.length : Int) false st)
        (spans.map fun sp => .arr [.num sp.1, .num sp.2])).1
      (processSpans (formatText 0 (st.length : Int) false st)
        (spans.map fun sp => .arr [.num sp.1, .num sp.2])).2 1 = _
  rw [h]
  rfl

theorem covers_iff (sp : Int × Int) (i : Nat) :
    covers sp i = true ↔ sp.1 ≤ (i : Int) ∧ (i : Int) < sp.1 + sp.2 := by
  simp [covers]

theorem applyAnnotations_eq_of_length (S : List (Int × Int))
    (st1 st2 : HighlightState) (h : st1.length = st2.length) :
    applyAnnotations S st1 = applyAnnotations S st2 := by
  unfold applyAnnotations
  rw [clear_eq_replicate, clear_eq_replicate, h]

theorem ext_highlighted (st1 st2 : HighlightState)
    (hlen : st1.length = st2.length)
    (h : ∀ i, highlighted st1 i = highlighted st2 i) : st1 = st2 := by
  apply List.ext_getElem hlen
  intro i h1 h2
  have hi := h i
  rwa [highlighted, highlighted, List.getD_eq_getElem _ _ h1,
    List.getD_eq_getElem _ _ h2] at hi

/-! ## The claims -/

/-- C1: Coverage exactness — for any document highlight state and any list of
disjoint, in-bounds spans `S`, after the reconciliation of the success path of
`handleTextSubmit` (`applyAnnotations S`), the character at index `i` carries
the highlight attribute iff `i` falls within some span of `S`; no other
character is highlighted. -/
theorem applyAnnotations_coverage_exact (S : List (Int × Int))
    (st : HighlightState)
    (_hdisj : S.Pairwise fun a b => a.1 + a.2 ≤ b.1 ∨ b.1 + b.2 ≤ a.1)
    (hvalid : ∀ sp ∈ S, 0 ≤ sp.1 ∧ 0 < sp.2 ∧ sp.1 + sp.2 ≤ (st.length : Int))
    (i : Nat) :
    highlighted (applyAnnotations S st) i = true ↔
      ∃ sp ∈ S, sp.1 ≤ (i : Int) ∧ (i : Int) < sp.1 + sp.2 := by
  rw [highlighted_applyAnnotations]
  simp only [Bool.and_eq_true, decide_eq_true_eq, List.any_eq_true, covers_iff]
  constructor
  · rintro ⟨-, sp, hmem, hcov⟩
    exact ⟨sp, hmem, hcov⟩
  · rintro ⟨sp, hmem, hcov⟩
    have hv := hvalid sp hmem
    refine ⟨?_, sp, hmem, hcov⟩
    omega

/-- Witness for C1: spans `[(0,2),(5,1)]` on a 6-character document, at
index 1 (highlighted, covered by `(0,2)`). -/
theorem applyAnnotations_coverage_exact_witness :
    highlighted (applyAnnotations [((0 : Int), (2 : Int)), ((5 : Int), (1 : Int))]
        (List.replicate 6 false)) 1 = true ↔
      ∃ sp ∈ [((0 : Int), (2 : Int)), ((5 : Int), (1 : Int))],
        sp.1 ≤ ((1 : Nat) : Int) ∧ ((1 : Nat) : Int) < sp.1 + sp.2 :=
  applyAnnotations_coverage_exact _ _ (by decide) (by decide) 1

/-- C2 counterexample: with text length `N = 10`, the out-of-bounds span
`(8,5)` is *not* dropped — after `applyAnnotations [(8,5)]` the character at
index 8 is highlighted, refuting "leaves no character highlighted". -/
theorem applyAnnotations_oob_not_dropped :
    highlighted (applyAnnotations [((8 : Int), (5 : Int))]
      (List.replicate 10 false)) 8 = true := by
  decide

/-- C2 amended: a span extending beyond the text length is not dropped (and
not an error): the facade clamps it, so exactly its in-bounds portion is
highlighted — with text length `N = 10`, `applyAnnotations [(8,5)]` highlights
exactly indices 8 and 9, whatever the prior highlight state, and mutates
nothing beyond index 9. -/
theorem applyAnnotations_oob_clamped (st : HighlightState)
    (h : st.length = 10) :
    applyAnnotations [((8 : Int), (5 : Int))] st =
      List.replicate 8 false ++ [true, true] := by
  unfold applyAnnotations
  rw [clear_eq_replicate, h]
  decide

/-- Witness for C2's amended claim, on an all-highlighted 10-character
document. -/
theorem applyAnnotations_oob_clamped_witness :
    applyAnnotations [((8 : Int), (5 : Int))] (List.replicate 10 true) =
      List.replicate 8 false ++ [true, true] :=
  applyAnnotations_oob_clamped (List.replicate 10 true) (by decide)

/-- C3 counterexample: the body `[["a","b"]]` is not recognizable as a span
list (its only element is not a two-number tuple), yet the submit path
mutates the document — the unconditional clear erases a pre-existing
highlight — and reports no error. -/
theorem handleTextSubmit_malformed_mutates_silently :
    (handleTextSubmit [true]
        (some (.arr [.arr [.str "a", .str "b"]]))).state ≠ [true] ∧
    (handleTextSubmit [true]
        (some (.arr [.arr [.str "a", .str "b"]]))).errorReported = false := by
  decide

/-- C3 amended: only a response body that is not an array at all (e.g. the
object `{}`) causes no document mutation — and even then no error is
reported: the body is silently ignored.  (An array body is processed even
when it is not a well-formed span list: the clear runs and the recognizable
elements are applied.) -/
theorem handleTextSubmit_nonarray_silent (st : HighlightState) (v : JsonVal)
    (h : v.isArr = false) :
    handleTextSubmit st (some v) = ⟨st, false, 1⟩ := by
  cases v with
  | arr elems => simp [JsonVal.isArr] at h
  | num n => rfl
  | str s => rfl
  | bool b => rfl
  | null => rfl
  | obj fields => rfl

/-- Witness for C3's amended claim: the body `{}`. -/
theorem handleTextSubmit_nonarray_silent_witness :
    handleTextSubmit [true] (some (.obj [])) = ⟨[true], false, 1⟩ :=
  handleTextSubmit_nonarray_silent [true] (.obj []) rfl

/-- C4: on a transport failure (the fetch or the body decode throws), the
submit operation leaves the document unchanged, reports the error, and issues
exactly one request — no retry. -/
theorem handleTextSubmit_transport_failure (st : HighlightState) :
    handleTextSubmit st none = ⟨st, true, 1⟩ := rfl

/-- C5: Full reset — for any text and any pre-existing highlight state,
`applyAnnotations []` leaves zero highlighted characters. -/
theorem applyAnnotations_nil_clears (st : HighlightState) (i : Nat) :
    highlighted (applyAnnotations [] st) i = false := by
  rw [highlighted_applyAnnotations]
  simp

/-- C6: Idempotence — running the reconciliation twice consecutively with the
same span list and no intervening edits yields exactly the same highlight
state as running it once (for every span list, valid or not). -/
theorem applyAnnotations_idempotent (S : List (Int × Int))
    (st : HighlightState) :
    applyAnnotations S (applyAnnotations S st) = applyAnnotations S st :=
  applyAnnotations_eq_of_length S _ _ (length_applyAnnotations S st)

/-- C7: Run-level dismiss — when the click target is highlighted and the
current selection index `i` itself lies on a highlighted character, the run
`[runStart st i, runEnd st i)` is exactly the maximal contiguous highlighted
run containing `i` (every index inside it was highlighted; its neighbours, if
any, were not), the click handler unhighlights that entire run, and the
highlight state of every index outside the run is unaffected. -/
theorem handleClick_dismisses_run (st : HighlightState) (i : Nat)
    (hi : highlighted st i = true) :
    (runStart st i ≤ i ∧ i < runEnd st i ∧ runEnd st i ≤ st.length) ∧
    (∀ j, runStart st i ≤ j → j < runEnd st i → highlighted st j = true) ∧
    (0 < runStart st i → highlighted st (runStart st i - 1) = false) ∧
    (runEnd st i < st.length → highlighted st (runEnd st i) = false) ∧
    (∀ j, runStart st i ≤ j → j < runEnd st i →
      highlighted (handleClick st true (some i)) j = false) ∧
    (∀ j, j < runStart st i ∨ runEnd st i ≤ j →
      highlighted (handleClick st true (some i)) j = highlighted st j) := by
  have hlen : i < st.length := lt_length_of_highlighted st i hi
  have hi' : st.getD i false = true := hi
  refine ⟨⟨runStart_le st i, lt_runEnd st i, runEnd_le_length st i hlen⟩,
    ?_, ?_, ?_, ?_, ?_⟩
  · intro j h1 h2
    show st.getD j false = true
    rcases Nat.le_total j i with hji | hji
    · rw [runStart_sat st i j h1 hji, hi']
    · rw [runEnd_sat st i j hji h2, hi']
  · intro h
    have hne := runStart_left st i h
    rw [hi'] at hne
    show st.getD (runStart st i - 1) false = false
    cases hb : st.getD (runStart st i - 1) false
    · rfl
    · exact absurd hb hne
  · intro h
    have hne := runEnd_stop st i h
    rw [hi'] at hne
    show st.getD (runEnd st i) false = false
    cases hb : st.getD (runEnd st i) false
    · rfl
    · exact absurd hb hne
  · intro j h1 h2
    rw [highlighted_handleClick, if_pos ⟨h1, h2⟩]
  · intro j hj
    rw [highlighted_handleClick, if_neg (by omega)]

/-- Witness for C7: the highlighted run `[5,15)` inside a 17-character
document, clicked while the selection sits at index 9: index 5 loses its
highlight and index 16 is untouched. -/
theorem handleClick_dismisses_run_witness :
    highlighted (handleClick
      (List.replicate 5 false ++ (List.replicate 10 true ++
        List.replicate 2 false)) true (some 9)) 5 = false ∧
    highlighted (handleClick
      (List.replicate 5 false ++ (List.replicate 10 true ++
        List.replicate 2 false)) true (some 9)) 16 =
      highlighted (List.replicate 5 false ++ (List.replicate 10 true ++
        List.replicate 2 false)) 16 :=
  ⟨(handleClick_dismisses_run _ 9 (by decide)).2.2.2.2.1 5 (by decide)
      (by decide),
    (handleClick_dismisses_run _ 9 (by decide)).2.2.2.2.2 16 (by decide)⟩

/-- C8: the final highlight state of the reconciliation does not depend on
the order of the spans in the scorer's response: permuted span lists produce
identical highlight states. -/
theorem applyAnnotations_perm_invariant (S Sp : List (Int × Int))
    (st : HighlightState) (hperm : S.Perm Sp) :
    applyAnnotations S st = applyAnnotations Sp st := by
  apply ext_highlighted
  · rw [length_applyAnnotations, length_applyAnnotations]
  · intro i
    rw [highlighted_applyAnnotations, highlighted_applyAnnotations]
    congr 1
    cases hS : S.any (fun sp => covers sp i) with
    | false =>
      cases hSp : Sp.any (fun sp => covers sp i) with
      | false => rfl
      | true =>
        rw [List.any_eq_true] at hSp
        obtain ⟨sp, hmem, hc⟩ := hSp
        have hS' : S.any (fun sp => covers sp i) = true :=
          List.any_eq_true.mpr ⟨sp, hperm.mem_iff.mpr hmem, hc⟩
        rw [hS] at hS'
        exact absurd hS' (by simp)
    | true =>
      rw [List.any_eq_true] at hS
      obtain ⟨sp, hmem, hc⟩ := hS
      exact (List.any_eq_true.mpr ⟨sp, hperm.mem_iff.mp hmem, hc⟩).symm

/-- Witness for C8: swapping the two spans of `[(0,1),(2,1)]` on a
3-character document. -/
theorem applyAnnotations_perm_invariant_witness :
    applyAnnotations [((0 : Int), (1 : Int)), ((2 : Int), (1 : Int))]
        (List.replicate 3 false) =
      applyAnnotations [((2 : Int), (1 : Int)), ((0 : Int), (1 : Int))]
        (List.replicate 3 false) :=
  applyAnnotations_perm_invariant _ _ _ (by decide)

/-- C9: a click that lands on a highlighted element while the editor reports
no current selection performs no document mutation. -/
theorem handleClick_no_selection_noop (st : HighlightState) :
    handleClick st true none = st := rfl

/-- C10 counterexample: for the array response `[5, [0,2]]`, the garbage
element `5` is not destructurable, so the loop throws at it: the valid span
`(0,2)` of the same response is never applied, while the clear has already
erased all prior highlights — refuting per-element independence. -/
theorem handleTextSubmit_garbage_elem_aborts :
    handleTextSubmit [true, true, true]
        (some (.arr [.num 5, .arr [.num 0, .num 2]])) =
      ⟨[false, false, false], true, 1⟩ := by
  decide

/-- C10 amended: when the response is an array, only the elements that are
themselves arrays are validated independently: a tuple element whose first
two entries are not both numbers with the second strictly positive produces
no formatting call while every other element is still applied (and the clear
still runs); an element that is not destructurable (number, boolean, null,
object) instead throws, aborting the rest of the loop while the clear and the
already-applied spans persist and the error is reported. -/
theorem handleTextSubmit_skips_bad_tuple (st : HighlightState)
    (pre post xs : List JsonVal) (h : tupleApplies xs = false) :
    handleTextSubmit st (some (.arr (pre ++ .arr xs :: post))) =
      handleTextSubmit st (some (.arr (pre ++ post))) := by
  show SubmitResult.mk
      (processSpans (formatText 0 (st.length : Int) false st)
        (pre ++ .arr xs :: post)).1
      (processSpans (formatText 0 (st.length : Int) false st)
        (pre ++ .arr xs :: post)).2 1 =
    SubmitResult.mk
      (processSpans (formatText 0 (st.length : Int) false st)
        (pre ++ post)).1
      (processSpans (formatText 0 (st.length : Int) false st)
        (pre ++ post)).2 1
  rw [processSpans_middle xs h]

/-- Witness for C10's amended claim: the tuple `["a"]` is skipped and the
valid span `[0,1]` before it is still applied. -/
theorem handleTextSubmit_skips_bad_tuple_witness :
    handleTextSubmit [false, false]
        (some (.arr ([.arr [.num 0, .num 1]] ++ .arr [.str "a"] :: []))) =
      handleTextSubmit [false, false]
        (some (.arr ([.arr [.num 0, .num 1]] ++ []))) :=
  handleTextSubmit_skips_bad_tuple [false, false]
    [.arr [.num 0, .num 1]] [] [.str "a"] (by decide)

end Haighlighter
